import Mathlib

/-!
Verification development for the smart-commit CLI core logic:
the branch-name sanitizer (`sanitizeForBranch`), the branch/commit
template engines, the commit-message linter and its interactive repair
loop, the ticket extractor and the commit-type suggester.

Strings are modelled as `String` / `List Char`.  JavaScript string
operations are embedded on the ASCII fragment: `\s`, `trim`,
`toLowerCase` and the character class `[a-zA-Z0-9_<sep>]` are given
their ASCII meaning, matching the spec's restriction to ASCII input.
-/

/-- ASCII whitespace recognised by the JavaScript `\s` class and `trim`:
space, tab, newline, vertical tab, form feed, carriage return. -/
def jsWhitespace (c : Char) : Bool :=
  c = ' ' || c = '\t' || c = '\n' || c = '\x0b' || c = '\x0c' || c = '\r'

/-- `c` is an ASCII letter (`a-z` or `A-Z`). -/
def isAsciiLetter (c : Char) : Bool :=
  (65 ≤ c.toNat && c.toNat ≤ 90) || (97 ≤ c.toNat && c.toNat ≤ 122)

/-- `c` is an ASCII digit (`0-9`). -/
def isAsciiDigit (c : Char) : Bool :=
  48 ≤ c.toNat && c.toNat ≤ 57

/-- ASCII fragment of JavaScript `toLowerCase`: maps `A-Z` to `a-z`,
leaves everything else unchanged. -/
def jsToLower (c : Char) : Char :=
  if 65 ≤ c.toNat && c.toNat ≤ 90 then Char.ofNat (c.toNat + 32) else c

/-- JavaScript `String.prototype.trim` on the ASCII fragment:
drop whitespace from both ends. -/
def jsTrim (l : List Char) : List Char :=
  ((l.dropWhile jsWhitespace).reverse.dropWhile jsWhitespace).reverse

/-- Characters allowed by the sanitizer's character class
`[a-zA-Z0-9_<sep>]` for a given separator. -/
def branchAllowed (sep : Char) (c : Char) : Bool :=
  isAsciiLetter c || isAsciiDigit c || c = '_' || c = sep

/-- Collapse every run of two-or-more consecutive occurrences of `sep`
into a single occurrence (the effect of `replace(/<sep>{2,}/g, sep)`). -/
def collapseRuns (sep : Char) : List Char → List Char
  | [] => []
  | [c] => [c]
  | c :: d :: rest =>
    if c = sep && d = sep then collapseRuns sep (d :: rest)
    else c :: collapseRuns sep (d :: rest)

/-- Drop the trailing run of characters satisfying `p`. -/
def dropTrailing (p : Char → Bool) (l : List Char) : List Char :=
  (l.reverse.dropWhile p).reverse

/-- `ExtendedPlaceholderConfig` from `stats.ts`: per-placeholder sanitizer
options.  `none` fields model absent JavaScript properties; the separator
is a single character as the spec's data model requires. -/
structure ExtendedPlaceholderConfig where
  separator : Option Char
  collapseSeparator : Option Bool
  maxLength : Option Nat
  lowercase : Option Bool
deriving DecidableEq

/-- The all-defaults options value (absent `options` object). -/
def emptyOptions : ExtendedPlaceholderConfig := ⟨none, none, none, none⟩

/-- `sanitizeForBranch` from `stats.ts`: replace whitespace with the
separator, strip characters outside `[a-zA-Z0-9_<sep>]`, lowercase unless
`lowercase` is explicitly `false`, collapse repeated separators unless
`collapseSeparator` is explicitly `false`, and truncate to `maxLength`
when that is set (a `maxLength` of `0` is falsy in JavaScript and
disables truncation). -/
def sanitizeForBranch (input : String) (options : ExtendedPlaceholderConfig) : String :=
  let separator := options.separator.getD '-'
  let collapseSeparator := options.collapseSeparator.getD true
  let r1 := input.data.map (fun c => if jsWhitespace c then separator else c)
  let r2 := r1.filter (branchAllowed separator)
  let r3 := if options.lowercase ≠ some false then r2.map jsToLower else r2
  let r4 := if collapseSeparator then collapseRuns separator r3 else r3
  let r5 := match options.maxLength with
    | some m => if m ≠ 0 && decide (r4.length > m) then r4.take m else r4
    | none => r4
  ⟨r5⟩

/-! Spec-side description of the sanitizer as a five-step pipeline
(§4.1 of the spec), used to state the order-of-operations claim. -/

/-- Spec step 1: replace every whitespace character with the separator. -/
def sanStepWhitespace (sep : Char) (l : List Char) : List Char :=
  l.map (fun c => if jsWhitespace c then sep else c)

/-- Spec step 2: remove every character that is not an ASCII letter,
digit, underscore, or the separator. -/
def sanStepStrip (sep : Char) (l : List Char) : List Char :=
  l.filter (branchAllowed sep)

/-- Spec step 3: lowercase the result unless `lowercase` is explicitly
`false`. -/
def sanStepLower (lc : Option Bool) (l : List Char) : List Char :=
  if lc ≠ some false then l.map jsToLower else l

/-- Spec step 4: collapse repeated separators unless `collapseSeparator`
is explicitly `false`. -/
def sanStepCollapse (sep : Char) (cs : Option Bool) (l : List Char) : List Char :=
  if cs.getD true then collapseRuns sep l else l

/-- Spec step 5: if `maxLength` is set and the result is longer,
truncate to exactly `maxLength` characters. -/
def sanStepTruncate (m : Option Nat) (l : List Char) : List Char :=
  match m with
  | some m => if l.length > m then l.take m else l
  | none => l

/-- The sanitizer pipeline before the truncation step. -/
def sanPreTruncate (input : String) (options : ExtendedPlaceholderConfig) : List Char :=
  sanStepCollapse (options.separator.getD '-') options.collapseSeparator
    (sanStepLower options.lowercase
      (sanStepStrip (options.separator.getD '-')
        (sanStepWhitespace (options.separator.getD '-') input.data)))

/-! The commit-message linter (`utils.ts`, `lintCommitMessage`). -/

/-- `LintRules` from the configuration. -/
structure LintRules where
  summaryMaxLength : Nat
  typeCase : String
  requiredTicket : Bool
deriving DecidableEq

/-- One lint rule breach, mirroring the three error messages pushed by
`lintCommitMessage` (the too-long message interpolates the summary length
and the configured maximum). -/
inductive LintViolation where
  | summaryTooLong (len max : Nat)
  | summaryNotLowercase
  | ticketRequired
deriving DecidableEq

/-- `lintCommitMessage` from `utils.ts`: the summary is the trimmed first
newline-separated line (`message.split('\n')[0].trim()`); the three
checks push their violations in this fixed order. -/
def lintCommitMessage (message : String) (rules : LintRules) : List LintViolation :=
  let summary := jsTrim (message.data.takeWhile (fun c => c ≠ '\n'))
  (if summary.length > rules.summaryMaxLength then
      [LintViolation.summaryTooLong summary.length rules.summaryMaxLength]
    else [])
  ++ (if rules.typeCase = "lowercase" && !summary.isEmpty
        && decide (summary.headD ' ' ≠ jsToLower (summary.headD ' ')) then
      [LintViolation.summaryNotLowercase]
    else [])
  ++ (if rules.requiredTicket && !message.data.contains '#' then
      [LintViolation.ticketRequired]
    else [])

/-! The interactive repair loop (`utils.ts`, `previewCommitMessage`),
with the prompt collaborator injected as a script of responses. -/

/-- One injected prompt response: a confirm answer or an editor text. -/
inductive Ans where
  | conf (b : Bool)
  | text (s : String)
deriving DecidableEq

/-- Outcome of a run of the repair loop: the accepted message, the
cancellation error thrown when the user declines to continue, or a
script/prompt shape mismatch (the run is still waiting on input). -/
inductive PreviewResult where
  | ok (msg : String)
  | cancelled
  | stuck
deriving DecidableEq

mutual

/-- `previewCommitMessage` driven by a response script; also counts the
number of `lintCommitMessage` evaluations.  Each loop iteration consumes
the `confirmPreview` answer and, when the preview was rejected, an
editor answer (an empty edit keeps the current draft,
`response.editedMessage || currentMessage`), then proceeds to the
lint-and-decide step `previewIter`. -/
def previewRun : List Ans → String → LintRules → PreviewResult × Nat
  | Ans.conf true :: rest, current, rules => previewIter rest current rules
  | Ans.conf false :: Ans.text e :: rest, current, rules =>
    previewIter rest (if e = "" then current else e) rules
  | _, _, _ => (PreviewResult.stuck, 0)
termination_by structural script _ _ => script

/-- The lint-and-decide step of one loop iteration: lint the draft once;
return it when there are no violations, otherwise consume the
`continueEditing` answer — declining throws (`cancelled`), agreeing
consumes the editor answer and loops with the edited draft
(`currentMessage = response.editedMessage`). -/
def previewIter (rest : List Ans) (current : String) (rules : LintRules) :
    PreviewResult × Nat :=
  if lintCommitMessage current rules = [] then (PreviewResult.ok current, 1)
  else
    match rest with
    | Ans.conf false :: _ => (PreviewResult.cancelled, 1)
    | Ans.conf true :: Ans.text e2 :: rest2 =>
      let p := previewRun rest2 e2 rules
      (p.1, p.2 + 1)
    | _ => (PreviewResult.stuck, 1)
termination_by structural rest

end

/-! The branch-name template engine (`stats.ts`, `registerBranchCommand`). -/

/-- Replace the first occurrence of `pat` in a list by `repl`
(JavaScript `String.prototype.replace` with a string pattern);
the list is returned unchanged when `pat` does not occur. -/
def replaceFirst (pat repl : List Char) : List Char → List Char
  | [] => if pat.isEmpty then repl else []
  | c :: rest =>
    if pat.isPrefixOf (c :: rest) then repl ++ (c :: rest).drop pat.length
    else c :: replaceFirst pat repl rest

/-- A JavaScript `\w` word character: ASCII letter, digit or underscore. -/
def isWordChar (c : Char) : Bool :=
  isAsciiLetter c || isAsciiDigit c || c = '_'

/-- Fuel-indexed scanner for the leftmost non-overlapping matches of
`/{(\w+)}/g`: at a `{`, take the maximal run of word characters; a match
needs that run non-empty and followed by `}`, and the scan resumes after
the match, otherwise at the next character.  The fuel only bounds the
recursion and never runs out when it exceeds the list length. -/
def scanPHAux : Nat → List Char → List (List Char)
  | 0, _ => []
  | _ + 1, [] => []
  | fuel + 1, c :: rest =>
    if c = '\x7b' then
      match rest.dropWhile isWordChar with
      | '\x7d' :: rest2 =>
        if (rest.takeWhile isWordChar).isEmpty then scanPHAux fuel rest
        else rest.takeWhile isWordChar :: scanPHAux fuel rest2
      | _ => scanPHAux fuel rest
    else scanPHAux fuel rest

/-- Scan a template for `/{(\w+)}/g` matches, returning the captured
placeholder names in order of appearance (duplicates included; the
command deduplicates afterwards). -/
def scanPH (l : List Char) : List (List Char) :=
  scanPHAux (l.length + 1) l

/-- Keep the first occurrence of each name (the command pushes a
placeholder name only if it is not already collected). -/
def dedupe (l : List (List Char)) : List (List Char) :=
  l.foldl (fun acc w => if w ∈ acc then acc else acc ++ [w]) []

/-- The literal template token `{ph}` for a placeholder name. -/
def phToken (ph : List Char) : List Char :=
  '\x7b' :: (ph ++ ['\x7d'])

/-- Association-list lookup for answer and placeholder-config maps. -/
def lookupA (m : List (List Char × List Char)) (k : List Char) : Option (List Char) :=
  match m with
  | [] => none
  | (k2, v) :: rest => if k2 = k then some v else lookupA rest k

/-- Association-list lookup for per-placeholder sanitizer options. -/
def lookupC (m : List (List Char × ExtendedPlaceholderConfig)) (k : List Char) :
    Option ExtendedPlaceholderConfig :=
  match m with
  | [] => none
  | (k2, v) :: rest => if k2 = k then some v else lookupC rest k

/-- The value substituted for a placeholder: the raw answer (missing
answers read as the empty string), sanitized with the placeholder's
configured options when non-empty (`if (answers[ph]) answers[ph] =
sanitizeForBranch(answers[ph], opts)`). -/
def resolvedValue (answers : List (List Char × List Char))
    (cfgs : List (List Char × ExtendedPlaceholderConfig)) (ph : List Char) : List Char :=
  let raw := (lookupA answers ph).getD []
  if raw.isEmpty then []
  else (sanitizeForBranch ⟨raw⟩ ((lookupC cfgs ph).getD emptyOptions)).data

/-- The substitution step for one placeholder: an empty resolved value
removes `{ph}/` first, then `{ph}-`, then bare `{ph}` (each replacing
the first occurrence, chained in that order); a non-empty value replaces
the first `{ph}`. -/
def substOne (resolve : List Char → List Char) (acc : List Char) (ph : List Char) :
    List Char :=
  let val := resolve ph
  if val.isEmpty then
    replaceFirst (phToken ph) []
      (replaceFirst (phToken ph ++ ['-']) []
        (replaceFirst (phToken ph ++ ['/']) [] acc))
  else replaceFirst (phToken ph) val acc

/-- Substitute every collected placeholder, in template order. -/
def substituteAll (phs : List (List Char)) (resolve : List Char → List Char)
    (t : List Char) : List Char :=
  phs.foldl (substOne resolve) t

/-- The cleanup pass after substitution: collapse repeated `/`, collapse
repeated `-`, trim leading and trailing `-` (`/^-+|-+$/g`), then strip
trailing `/` (`/\/+$/`). -/
def cleanupBranch (l : List Char) : List Char :=
  dropTrailing (fun c => c = '/')
    (dropTrailing (fun c => c = '-')
      ((collapseRuns '-' (collapseRuns '/' l)).dropWhile (fun c => c = '-')))

/-- The decimal digit character of `n % 10`. -/
def natDigitChar (n : Nat) : Char :=
  match n % 10 with
  | 0 => '0' | 1 => '1' | 2 => '2' | 3 => '3' | 4 => '4'
  | 5 => '5' | 6 => '6' | 7 => '7' | 8 => '8' | _ => '9'

/-- Fuel-indexed decimal rendering; the fuel only bounds the recursion
and never runs out when it exceeds the rendered number. -/
def natDecimalAux : Nat → Nat → List Char
  | 0, _ => []
  | fuel + 1, n =>
    if n < 10 then [natDigitChar n]
    else natDecimalAux fuel (n / 10) ++ [natDigitChar n]

/-- Decimal rendering of a natural number (the `${randomPart}` template
interpolation). -/
def natDecimal (n : Nat) : List Char :=
  natDecimalAux (n + 1) n

/-- The fallback branch name `new-branch-<r>`. -/
def newBranchChars (r : Nat) : List Char :=
  "new-branch-".data ++ natDecimal r

/-- Whether a string matches `^new-branch-\d+$`. -/
def matchesNewBranchNum (s : String) : Bool :=
  "new-branch-".data.isPrefixOf s.data
    && !(s.data.drop 11).isEmpty
    && (s.data.drop 11).all isAsciiDigit

/-- Branch-name rendering from `registerBranchCommand`: scan the template
for `{word}` placeholders (duplicates ignored), sanitize the non-empty
answers, substitute (removing one adjacent separator after a placeholder
with an empty value), clean up, and fall back to `new-branch-<r>` when
the cleaned name is empty.  `r` is the injected random number
`Math.floor(Math.random() * 10000)`. -/
def renderBranchName (template : String) (answers : List (List Char × List Char))
    (cfgs : List (List Char × ExtendedPlaceholderConfig)) (r : Nat) : String :=
  let phs := dedupe (scanPH template.data)
  let sub := substituteAll phs (resolvedValue answers cfgs) template.data
  let cleaned := cleanupBranch sub
  if cleaned.isEmpty then ⟨newBranchChars r⟩ else ⟨cleaned⟩

/-! Commit-message rendering (`commit.ts`, `registerCommitCommand`). -/

/-- The answers collected by the commit prompts (optional fields
normalised to the empty string). -/
structure CommitAnswers where
  type : String
  scope : String
  summary : String
  body : String
  footer : String
  ticket : String
deriving DecidableEq

/-- Commit-message rendering: `scope` is wrapped in parentheses only when
non-empty, `ticketSeparator` is `": "` only when the ticket is non-empty,
and the template's seven recognised tokens are replaced (first occurrence
each) in the source's chaining order: `{ticket}`, `{ticketSeparator}`,
`{type}`, `{scope}`, `{summary}`, `{body}`, `{footer}`. -/
def renderCommitMessage (template : String) (a : CommitAnswers) : String :=
  let scopeFormatted :=
    if (jsTrim a.scope.data).isEmpty then []
    else '(' :: (jsTrim a.scope.data ++ [')'])
  let ticketSep := if (jsTrim a.ticket.data).isEmpty then [] else ": ".data
  ⟨replaceFirst "{footer}".data (jsTrim a.footer.data)
    (replaceFirst "{body}".data (jsTrim a.body.data)
      (replaceFirst "{summary}".data (jsTrim a.summary.data)
        (replaceFirst "{scope}".data scopeFormatted
          (replaceFirst "{type}".data a.type.data
            (replaceFirst "{ticketSeparator}".data ticketSep
              (replaceFirst "{ticket}".data (jsTrim a.ticket.data) template.data))))))⟩

/-! The commit-type suggester (`utils.ts`, `suggestCommitType`), as a
function of the staged file list read from `git diff --cached`. -/

/-- Whether `sub` occurs as a contiguous subsequence of a list. -/
def containsSeq (sub : List Char) : List Char → Bool
  | [] => sub.isEmpty
  | c :: rest => sub.isPrefixOf (c :: rest) || containsSeq sub rest

/-- JavaScript `String.prototype.includes`: substring containment. -/
def jsIncludes (s sub : String) : Bool :=
  containsSeq sub.data s.data

/-- JavaScript `String.prototype.endsWith`. -/
def jsEndsWith (s suffix : String) : Bool :=
  suffix.data.isSuffixOf s.data

/-- JavaScript `String.prototype.startsWith`. -/
def jsStartsWith (s pre : String) : Bool :=
  pre.data.isPrefixOf s.data

/-- The known config filenames checked by the `chore` rule. -/
def configFiles : List String :=
  ["package.json", "tsconfig.json", ".eslintrc", ".prettierrc",
   "babel.config.js", "webpack.config.js", "vite.config.ts", ".env",
   "docker-compose.yml", "Dockerfile"]

/-- The recognised source subdirectories checked by the `feat` rule. -/
def sourcePatterns : List String :=
  ["src/components/", "src/hooks/", "src/utils/", "src/services/",
   "src/context/", "src/types/", "src/styles/"]

/-- `suggestCommitType`: the ordered decision list over the staged file
paths, first matching rule wins; `none` when no rule matches or nothing
is staged. -/
def suggestCommitType (diffFiles : List String) : Option String :=
  if diffFiles.length > 0 then
    if diffFiles.all (fun f => jsEndsWith f ".md") then some "docs"
    else if diffFiles.any (fun f => configFiles.contains f) then some "chore"
    else if diffFiles.any (fun f =>
        jsIncludes f "__tests__" || jsEndsWith f ".test.ts"
          || jsEndsWith f ".spec.ts") then some "test"
    else if diffFiles.any (fun f =>
        sourcePatterns.any (fun pattern => jsIncludes f pattern)) then
      (if diffFiles.any (fun f =>
          jsIncludes f "styles/" || jsEndsWith f ".css" || jsEndsWith f ".scss") then
        some "style"
      else if diffFiles.any (fun f =>
          jsIncludes f "types/" || jsEndsWith f ".d.ts") then some "refactor"
      else some "feat")
    else if diffFiles.any (fun f =>
        jsIncludes f "perf/" || jsIncludes f "performance/"
          || jsIncludes f "optimization/") then some "perf"
    else if diffFiles.any (fun f =>
        jsIncludes f "security/" || jsEndsWith f ".lock"
          || jsIncludes f "vulnerability") then some "security"
    else if diffFiles.any (fun f =>
        jsIncludes f ".github/workflows/" || jsIncludes f "ci/"
          || jsIncludes f "cd/" || f = ".gitlab-ci.yml") then some "ci"
    else if diffFiles.any (fun f =>
        f = "package-lock.json" || f = "yarn.lock" || f = "pnpm-lock.yaml") then
      some "build"
    else if diffFiles.any (fun f => jsStartsWith f "src/") then some "feat"
    else none
  else none

/-- A commit type entry of the configuration. -/
structure CommitType where
  emoji : String
  value : String
  description : String
deriving DecidableEq

/-- The nine commit types of `defaultConfig` in `utils.ts`. -/
def defaultCommitTypes : List CommitType :=
  [⟨"✨", "feat", "A new feature"⟩,
   ⟨"🐛", "fix", "A bug fix"⟩,
   ⟨"📝", "docs", "Documentation changes"⟩,
   ⟨"💄", "style", "Code style improvements"⟩,
   ⟨"♻️", "refactor", "Code refactoring"⟩,
   ⟨"🚀", "perf", "Performance improvements"⟩,
   ⟨"✅", "test", "Adding tests"⟩,
   ⟨"🔧", "chore", "Maintenance and chores"⟩,
   ⟨"🚧", "wip", "Work in progress"⟩]

/-! Ticket auto-extraction (`commit.ts`).  The regular-expression
collaborator (`new RegExp` + `String.prototype.match`) is abstracted as
an oracle: `Except.error` models an invalid pattern (the constructor
throws), `Except.ok none` no match, and `Except.ok (some m)` a first
match `m`. -/

/-- The ticket auto-extraction step: attempted only when the ticket
prompt step is enabled, the entered ticket is empty, and the configured
pattern is non-empty (`config.steps.ticket && !answers.ticket &&
config.ticketRegex`); a thrown error is swallowed by the surrounding
`try/catch`, and the match is kept only when `match && match[0]` is
truthy (a non-empty first match). -/
def extractTicketStep (stepsTicket : Bool) (ticket : String)
    (ticketRegex : String) (branchName : String)
    (oracle : String → String → Except Unit (Option String)) : String :=
  if stepsTicket && ticket = "" && ticketRegex ≠ "" then
    match oracle ticketRegex branchName with
    | Except.error _ => ticket
    | Except.ok none => ticket
    | Except.ok (some m) => if m ≠ "" then m else ticket
  else ticket

/-! Supporting lemmas. -/

/-- The characters matching `^[a-z0-9_-]$`. -/
def lowBranchChar (c : Char) : Bool :=
  (97 ≤ c.toNat && c.toNat ≤ 122) || isAsciiDigit c || c = '_' || c = '-'

theorem toNat_ofNat_add32 {k : Nat} (h1 : 65 ≤ k) (h2 : k ≤ 90) :
    (Char.ofNat (k + 32)).toNat = k + 32 := by
  interval_cases k <;> decide

theorem jsToLower_not_upper (c : Char) :
    ¬(65 ≤ (jsToLower c).toNat ∧ (jsToLower c).toNat ≤ 90) := by
  unfold jsToLower
  split
  · next h =>
    simp only [Bool.and_eq_true, decide_eq_true_eq] at h
    rw [toNat_ofNat_add32 h.1 h.2]
    omega
  · next h =>
    simp only [Bool.and_eq_true, decide_eq_true_eq, not_and] at h ⊢
    omega

theorem jsToLower_branchAllowed {sep c : Char} (h : branchAllowed sep c = true) :
    branchAllowed sep (jsToLower c) = true := by
  unfold jsToLower
  split
  · next hu =>
    simp only [Bool.and_eq_true, decide_eq_true_eq] at hu
    have ht := toNat_ofNat_add32 hu.1 hu.2
    have hl : isAsciiLetter (Char.ofNat (c.toNat + 32)) = true := by
      simp only [isAsciiLetter, Bool.or_eq_true, Bool.and_eq_true, decide_eq_true_eq]
      right
      rw [ht]
      omega
    simp [branchAllowed, hl]
  · exact h

theorem mem_collapseRuns {sep c : Char} :
    ∀ {l : List Char}, c ∈ collapseRuns sep l → c ∈ l := by
  intro l
  induction l with
  | nil => simp [collapseRuns]
  | cons a tl ih =>
    cases tl with
    | nil => simp [collapseRuns]
    | cons b rest =>
      simp only [collapseRuns]
      split
      · intro h
        exact List.mem_cons_of_mem a (ih h)
      · intro h
        rcases List.mem_cons.mp h with h1 | h1
        · exact h1 ▸ List.mem_cons_self a _
        · exact List.mem_cons_of_mem a (ih h1)

/-- The truncation step exactly as coded (`maxLength` of `0` is falsy). -/
def codeTruncate (m : Option Nat) (l : List Char) : List Char :=
  match m with
  | some m => if m ≠ 0 && decide (l.length > m) then l.take m else l
  | none => l

/-- The sanitizer is the spec pipeline followed by the coded
truncation step. -/
theorem sanitizeForBranch_data_eq (s : String) (opts : ExtendedPlaceholderConfig) :
    (sanitizeForBranch s opts).data
      = codeTruncate opts.maxLength (sanPreTruncate s opts) := by
  unfold sanitizeForBranch codeTruncate sanPreTruncate sanStepCollapse sanStepLower
    sanStepStrip sanStepWhitespace
  rfl

theorem mem_codeTruncate {c : Char} {m : Option Nat} {l : List Char}
    (h : c ∈ codeTruncate m l) : c ∈ l := by
  unfold codeTruncate at h
  rcases m with _ | m
  · exact h
  · simp only at h
    split at h
    · exact List.mem_of_mem_take h
    · exact h

theorem mem_sanPreTruncate {c : Char} {s : String} {opts : ExtendedPlaceholderConfig}
    (h : c ∈ sanPreTruncate s opts) :
    branchAllowed (opts.separator.getD '-') c = true ∧
      (opts.lowercase ≠ some false → ¬(65 ≤ c.toNat ∧ c.toNat ≤ 90)) := by
  unfold sanPreTruncate sanStepCollapse at h
  have h3 : c ∈ sanStepLower opts.lowercase
      (sanStepStrip (opts.separator.getD '-')
        (sanStepWhitespace (opts.separator.getD '-') s.data)) := by
    split at h
    · exact mem_collapseRuns h
    · exact h
  unfold sanStepLower at h3
  split at h3
  · next hlc =>
    rcases List.mem_map.mp h3 with ⟨c0, hc0, rfl⟩
    have hall := (List.mem_filter.mp hc0).2
    exact ⟨jsToLower_branchAllowed hall, fun _ => jsToLower_not_upper c0⟩
  · next hlc =>
    have hall := (List.mem_filter.mp h3).2
    exact ⟨hall, fun hh => absurd hh (by simp_all)⟩

/-- Every character of a sanitizer output is allowed by the character
class, and when lowercasing is active it is additionally not an
uppercase ASCII letter. -/
theorem sanitize_chars (s : String) (opts : ExtendedPlaceholderConfig) :
    ∀ c ∈ (sanitizeForBranch s opts).data,
      branchAllowed (opts.separator.getD '-') c = true ∧
        (opts.lowercase ≠ some false → ¬(65 ≤ c.toNat ∧ c.toNat ≤ 90)) := by
  intro c hc
  rw [sanitizeForBranch_data_eq] at hc
  exact mem_sanPreTruncate (mem_codeTruncate hc)

theorem lowBranchChar_of {c : Char} (h1 : branchAllowed '-' c = true)
    (h2 : ¬(65 ≤ c.toNat ∧ c.toNat ≤ 90)) : lowBranchChar c = true := by
  simp only [branchAllowed, isAsciiLetter, Bool.or_eq_true, Bool.and_eq_true,
    decide_eq_true_eq] at h1
  simp only [lowBranchChar, Bool.or_eq_true, Bool.and_eq_true, decide_eq_true_eq]
  rcases h1 with (((ha | hb) | hd) | hu) | hs
  · exact absurd ha h2
  · exact Or.inl (Or.inl (Or.inl hb))
  · exact Or.inl (Or.inl (Or.inr hd))
  · exact Or.inl (Or.inr hu)
  · exact Or.inr hs

/-- C1: with default options the sanitizer's output matches
`^[a-z0-9_-]*$` for every ASCII input, and for every input and options
the output contains only ASCII letters, digits, underscore, and the
configured separator character. -/
theorem C1_sanitizer_output_charset :
    (∀ s : String, s.data.all (fun c => c.toNat < 128) = true →
      (sanitizeForBranch s emptyOptions).data.all lowBranchChar = true)
    ∧ (∀ (s : String) (opts : ExtendedPlaceholderConfig),
      (sanitizeForBranch s opts).data.all
        (branchAllowed (opts.separator.getD '-')) = true) := by
  constructor
  · intro s _
    rw [List.all_eq_true]
    intro c hc
    have h := sanitize_chars s emptyOptions c hc
    exact lowBranchChar_of h.1 (h.2 (by simp [emptyOptions]))
  · intro s opts
    rw [List.all_eq_true]
    intro c hc
    exact (sanitize_chars s opts c hc).1

/-- Witness for C1 at the concrete ASCII input `"My Custom Branch"`. -/
theorem C1_witness :
    (sanitizeForBranch "My Custom Branch" emptyOptions).data.all lowBranchChar = true :=
  C1_sanitizer_output_charset.1 "My Custom Branch" (by decide)

/-- C2: the sanitizer applies exactly the five spec steps in order —
whitespace replacement, invalid-character stripping, case-folding,
separator collapsing, truncation — and when `maxLength` is a positive
`m` the output length is exactly `min m` (length before truncation),
i.e. a hard cut to exactly `maxLength` characters when the result was
longer.  (`maxLength = some 0` is excluded: the spec types `maxLength`
as a positive integer, and the code treats `0` as unset.) -/
theorem C2_sanitizer_step_order :
    ∀ (input : String) (opts : ExtendedPlaceholderConfig),
      opts.maxLength ≠ some 0 →
      (sanitizeForBranch input opts).data
          = sanStepTruncate opts.maxLength
              (sanStepCollapse (opts.separator.getD '-') opts.collapseSeparator
                (sanStepLower opts.lowercase
                  (sanStepStrip (opts.separator.getD '-')
                    (sanStepWhitespace (opts.separator.getD '-') input.data))))
        ∧ ∀ m, opts.maxLength = some m →
            (sanitizeForBranch input opts).data.length
              = min m (sanPreTruncate input opts).length := by
  intro input opts hml
  have hdq : (sanitizeForBranch input opts).data
      = sanStepTruncate opts.maxLength (sanPreTruncate input opts) := by
    rw [sanitizeForBranch_data_eq]
    unfold codeTruncate sanStepTruncate
    rcases hm : opts.maxLength with _ | m
    · rfl
    · have hm0 : m ≠ 0 := by
        intro h0
        exact hml (by rw [hm, h0])
      simp [hm0]
  constructor
  · rw [hdq]
    rfl
  · intro m hm
    rw [hdq, hm]
    have hred : sanStepTruncate (some m) (sanPreTruncate input opts)
        = if (sanPreTruncate input opts).length > m then
            (sanPreTruncate input opts).take m
          else sanPreTruncate input opts := rfl
    rw [hred]
    split
    · next hgt =>
      rw [List.length_take]
    · next hgt =>
      exact (Nat.min_eq_right (by omega)).symm

/-- Witness for C2 at a concrete input and a positive `maxLength`. -/
theorem C2_witness :
    (sanitizeForBranch "My Custom Branch"
        (⟨some '-', some true, some 5, none⟩ : ExtendedPlaceholderConfig)).data.length
      = min 5 (sanPreTruncate "My Custom Branch"
        (⟨some '-', some true, some 5, none⟩ : ExtendedPlaceholderConfig)).length :=
  (C2_sanitizer_step_order "My Custom Branch" ⟨some '-', some true, some 5, none⟩
    (by decide)).2 5 rfl

/-! The linter's three rule conditions, named for the statement of the
lint claims. -/

/-- The summary line: the trimmed first newline-separated line. -/
def lintSummary (message : String) : List Char :=
  jsTrim (message.data.takeWhile (fun c => c ≠ '\n'))

/-- Rule 1 condition: the summary exceeds `summaryMaxLength`. -/
def tooLongCond (message : String) (rules : LintRules) : Prop :=
  (lintSummary message).length > rules.summaryMaxLength

instance (message : String) (rules : LintRules) : Decidable (tooLongCond message rules) :=
  Nat.decLt _ _

/-- Rule 2 condition: `typeCase` is `lowercase`, the summary is
non-empty, and its first character differs from its own lowercase
form. -/
def lowerCond (message : String) (rules : LintRules) : Bool :=
  rules.typeCase = "lowercase" && !(lintSummary message).isEmpty
    && decide ((lintSummary message).headD ' ' ≠ jsToLower ((lintSummary message).headD ' '))

/-- Rule 3 condition: a ticket is required and the whole message
contains no `#`. -/
def ticketCond (message : String) (rules : LintRules) : Bool :=
  rules.requiredTicket && !message.data.contains '#'

theorem lint_decomp : ∀ (msg : String) (rules : LintRules),
    lintCommitMessage msg rules =
      (if tooLongCond msg rules then
          [LintViolation.summaryTooLong (lintSummary msg).length rules.summaryMaxLength]
        else [])
      ++ (if lowerCond msg rules then [LintViolation.summaryNotLowercase] else [])
      ++ (if ticketCond msg rules then [LintViolation.ticketRequired] else []) := by
  intro msg rules
  unfold lintCommitMessage tooLongCond lowerCond ticketCond lintSummary
  rfl

theorem lint_empty_iff : ∀ (msg : String) (rules : LintRules),
    lintCommitMessage msg rules = [] ↔
      ¬tooLongCond msg rules ∧ lowerCond msg rules = false
        ∧ ticketCond msg rules = false := by
  intro msg rules
  rw [lint_decomp]
  by_cases h2 : tooLongCond msg rules
    <;> rcases h3 : lowerCond msg rules <;> rcases h4 : ticketCond msg rules <;> simp_all

/-- C4: the linter returns exactly the applicable violations, in the
fixed order too-long, not-lowercase, ticket-required, each governed by
its stated condition over the trimmed first line (respectively the whole
message for the ticket rule); the result is empty exactly when all three
conditions fail; and the concrete message `"valid\nBody with #123"`
passes under `{summaryMaxLength: 100, typeCase: lowercase,
requiredTicket: true}`. -/
theorem C4_linter_violations :
    (∀ (msg : String) (rules : LintRules),
      lintCommitMessage msg rules =
        (if tooLongCond msg rules then
            [LintViolation.summaryTooLong (lintSummary msg).length rules.summaryMaxLength]
          else [])
        ++ (if lowerCond msg rules then [LintViolation.summaryNotLowercase] else [])
        ++ (if ticketCond msg rules then [LintViolation.ticketRequired] else []))
    ∧ (∀ (msg : String) (rules : LintRules),
      lintCommitMessage msg rules = [] ↔
        ¬tooLongCond msg rules ∧ lowerCond msg rules = false
          ∧ ticketCond msg rules = false)
    ∧ lintCommitMessage "valid\nBody with #123" ⟨100, "lowercase", true⟩ = [] :=
  ⟨lint_decomp, lint_empty_iff, by decide⟩

/-! Lemmas about the repair loop. -/

theorem preview_ok_aux : ∀ (N : Nat),
    (∀ (script : List Ans) (current : String) (rules : LintRules) (msg : String) (n : Nat),
      script.length ≤ N →
      previewRun script current rules = (PreviewResult.ok msg, n) →
      lintCommitMessage msg rules = [])
    ∧ (∀ (rest : List Ans) (current : String) (rules : LintRules) (msg : String) (n : Nat),
      rest.length ≤ N →
      previewIter rest current rules = (PreviewResult.ok msg, n) →
      lintCommitMessage msg rules = []) := by
  have iterStep : ∀ (N : Nat),
      (∀ (script : List Ans) (current : String) (rules : LintRules) (msg : String) (n : Nat),
        script.length ≤ N →
        previewRun script current rules = (PreviewResult.ok msg, n) →
        lintCommitMessage msg rules = []) →
      (∀ (rest : List Ans) (current : String) (rules : LintRules) (msg : String) (n : Nat),
        rest.length ≤ N + 1 →
        previewIter rest current rules = (PreviewResult.ok msg, n) →
        lintCommitMessage msg rules = []) := by
    intro N hrun rest current rules msg n hlen hr
    rw [previewIter.eq_def] at hr
    by_cases h : lintCommitMessage current rules = []
    · rw [if_pos h] at hr
      simp only [Prod.mk.injEq, PreviewResult.ok.injEq] at hr
      rw [← hr.1]
      exact h
    · rw [if_neg h] at hr
      rcases rest with _ | ⟨a, tail⟩
      · simp at hr
      · rcases a with b | s
        · rcases b
          · simp at hr
          · rcases tail with _ | ⟨a2, tail2⟩
            · simp at hr
            · rcases a2 with b2 | s2
              · simp at hr
              · simp only [Prod.mk.injEq] at hr
                refine hrun tail2 s2 rules msg (previewRun tail2 s2 rules).2 ?_
                  (Prod.ext hr.1 rfl)
                simp at hlen
                omega
        · simp at hr
  have runStep : ∀ (N : Nat),
      (∀ (rest : List Ans) (current : String) (rules : LintRules) (msg : String) (n : Nat),
        rest.length ≤ N →
        previewIter rest current rules = (PreviewResult.ok msg, n) →
        lintCommitMessage msg rules = []) →
      (∀ (script : List Ans) (current : String) (rules : LintRules) (msg : String) (n : Nat),
        script.length ≤ N + 1 →
        previewRun script current rules = (PreviewResult.ok msg, n) →
        lintCommitMessage msg rules = []) := by
    intro N hiter script current rules msg n hlen hr
    rcases script with _ | ⟨a, rest⟩
    · rw [show previewRun [] current rules = (PreviewResult.stuck, 0) from rfl] at hr
      simp at hr
    · rcases a with b | s
      · rcases b
        · rcases rest with _ | ⟨a2, rest2⟩
          · rw [show previewRun [Ans.conf false] current rules
                = (PreviewResult.stuck, 0) from rfl] at hr
            simp at hr
          · rcases a2 with b2 | s2
            · rw [show previewRun (Ans.conf false :: Ans.conf b2 :: rest2) current rules
                  = (PreviewResult.stuck, 0) from rfl] at hr
              simp at hr
            · rw [previewRun.eq_2] at hr
              refine hiter rest2 (if s2 = "" then current else s2) rules msg n ?_ hr
              simp at hlen
              omega
        · rw [previewRun.eq_1] at hr
          refine hiter rest current rules msg n ?_ hr
          simp at hlen
          omega
      · rw [show previewRun (Ans.text s :: rest) current rules
            = (PreviewResult.stuck, 0) from rfl] at hr
        simp at hr
  intro N
  induction N with
  | zero =>
    constructor
    · intro script current rules msg n hlen hr
      have hs : script = [] := List.eq_nil_of_length_eq_zero (Nat.le_zero.mp hlen)
      subst hs
      rw [show previewRun [] current rules = (PreviewResult.stuck, 0) from rfl] at hr
      simp at hr
    · intro rest current rules msg n hlen hr
      rw [previewIter.eq_def] at hr
      by_cases h : lintCommitMessage current rules = []
      · rw [if_pos h] at hr
        simp only [Prod.mk.injEq, PreviewResult.ok.injEq] at hr
        rw [← hr.1]
        exact h
      · rw [if_neg h] at hr
        have hs : rest = [] := List.eq_nil_of_length_eq_zero (Nat.le_zero.mp hlen)
        subst hs
        simp at hr
  | succ N ih =>
    exact ⟨runStep N ih.2, iterStep N (fun script current rules msg n hl =>
      ih.1 script current rules msg n hl)⟩

theorem previewRun_ok_passes :
    ∀ (script : List Ans) (current : String) (rules : LintRules) (msg : String) (n : Nat),
      previewRun script current rules = (PreviewResult.ok msg, n) →
      lintCommitMessage msg rules = [] := by
  intro script current rules msg n hr
  exact (preview_ok_aux script.length).1 script current rules msg n le_rfl hr

theorem preview_two_lints :
    ∀ (m0 m1 : String) (rules : LintRules),
      lintCommitMessage m0 rules ≠ [] →
      lintCommitMessage m1 rules = [] →
      previewRun [Ans.conf true, Ans.conf true, Ans.text m1, Ans.conf true] m0 rules
        = (PreviewResult.ok m1, 2) := by
  intro m0 m1 rules h0 h1
  rw [show previewRun [Ans.conf true, Ans.conf true, Ans.text m1, Ans.conf true] m0 rules
      = previewIter [Ans.conf true, Ans.text m1, Ans.conf true] m0 rules from rfl]
  rw [previewIter.eq_def, if_neg h0]
  have e2 : previewRun [Ans.conf true] m1 rules = (PreviewResult.ok m1, 1) := by
    rw [show previewRun [Ans.conf true] m1 rules = previewIter [] m1 rules from rfl,
      previewIter.eq_def, if_pos h1]
  simp [e2]

theorem preview_decline_cancels :
    ∀ (current : String) (rules : LintRules) (rest : List Ans),
      lintCommitMessage current rules ≠ [] →
      previewRun (Ans.conf true :: Ans.conf false :: rest) current rules
        = (PreviewResult.cancelled, 1) := by
  intro current rules rest h
  rw [show previewRun (Ans.conf true :: Ans.conf false :: rest) current rules
      = previewIter (Ans.conf false :: rest) current rules from rfl]
  rw [previewIter.eq_def, if_neg h]

theorem preview_decline_cancels_after_edit :
    ∀ (current e : String) (rules : LintRules) (rest : List Ans),
      lintCommitMessage (if e = "" then current else e) rules ≠ [] →
      previewRun (Ans.conf false :: Ans.text e :: Ans.conf false :: rest) current rules
        = (PreviewResult.cancelled, 1) := by
  intro current e rules rest h
  rw [show previewRun (Ans.conf false :: Ans.text e :: Ans.conf false :: rest) current rules
      = previewIter (Ans.conf false :: rest) (if e = "" then current else e) rules from rfl]
  rw [previewIter.eq_def, if_neg h]

/-- C5: with a failing initial message and a single simulated edit to a
passing message, the repair loop returns the edited message after
exactly two lint evaluations; and every message the loop returns has
zero lint violations under the given rules. -/
theorem C5_repair_loop :
    (∀ (m0 m1 : String) (rules : LintRules),
      lintCommitMessage m0 rules ≠ [] →
      lintCommitMessage m1 rules = [] →
      previewRun [Ans.conf true, Ans.conf true, Ans.text m1, Ans.conf true] m0 rules
        = (PreviewResult.ok m1, 2))
    ∧ (∀ (script : List Ans) (current : String) (rules : LintRules) (msg : String) (n : Nat),
      previewRun script current rules = (PreviewResult.ok msg, n) →
      lintCommitMessage msg rules = []) :=
  ⟨preview_two_lints, previewRun_ok_passes⟩

/-- Witness for C5: the initial draft `"Bad"` fails the lowercase rule,
the edit `"ok"` passes, and the loop returns the edit after two lint
evaluations. -/
theorem C5_witness :
    previewRun [Ans.conf true, Ans.conf true, Ans.text "ok", Ans.conf true] "Bad"
        ⟨72, "lowercase", false⟩
      = (PreviewResult.ok "ok", 2) :=
  C5_repair_loop.1 "Bad" "ok" ⟨72, "lowercase", false⟩ (by decide) (by decide)

/-- C6: when lint violations are present and the user declines to
continue editing, the loop throws the cancellation error — it never
returns the failing message and never completes silently, on both the
direct path and the path where the user first edited the draft. -/
theorem C6_decline_aborts :
    ∀ (current : String) (rules : LintRules) (rest : List Ans),
      (lintCommitMessage current rules ≠ [] →
        previewRun (Ans.conf true :: Ans.conf false :: rest) current rules
            = (PreviewResult.cancelled, 1)
          ∧ ∀ (msg : String) (n : Nat),
              previewRun (Ans.conf true :: Ans.conf false :: rest) current rules
                ≠ (PreviewResult.ok msg, n))
      ∧ (∀ e : String,
        lintCommitMessage (if e = "" then current else e) rules ≠ [] →
        previewRun (Ans.conf false :: Ans.text e :: Ans.conf false :: rest) current rules
            = (PreviewResult.cancelled, 1)
          ∧ ∀ (msg : String) (n : Nat),
              previewRun (Ans.conf false :: Ans.text e :: Ans.conf false :: rest) current rules
                ≠ (PreviewResult.ok msg, n)) := by
  intro current rules rest
  constructor
  · intro h
    have he := preview_decline_cancels current rules rest h
    refine ⟨he, fun msg n hok => ?_⟩
    rw [he] at hok
    simp at hok
  · intro e h
    have he := preview_decline_cancels_after_edit current e rules rest h
    refine ⟨he, fun msg n hok => ?_⟩
    rw [he] at hok
    simp at hok

/-- Witness for C6: declining on the failing draft `"Bad"` cancels. -/
theorem C6_witness :
    previewRun [Ans.conf true, Ans.conf false] "Bad" ⟨72, "lowercase", false⟩
      = (PreviewResult.cancelled, 1) :=
  ((C6_decline_aborts "Bad" ⟨72, "lowercase", false⟩ []).1 (by decide)).1

/-- C8: ticket auto-extraction never runs with an empty pattern (for
every oracle the ticket is unchanged); an invalid pattern (an oracle
error, i.e. the thrown `RegExp` constructor exception) is swallowed
silently and leaves the ticket unchanged, as does a failed match; and
when extraction is attempted and the first match is non-empty, the
ticket becomes that first match. -/
theorem C8_ticket_extraction :
    ∀ (oracle : String → String → Except Unit (Option String))
      (stepsTicket : Bool) (ticket branchName : String),
      (extractTicketStep stepsTicket ticket "" branchName oracle = ticket)
      ∧ (∀ (pattern : String) (err : Unit),
          oracle pattern branchName = Except.error err →
          extractTicketStep stepsTicket ticket pattern branchName oracle = ticket)
      ∧ (∀ pattern : String,
          oracle pattern branchName = Except.ok none →
          extractTicketStep stepsTicket ticket pattern branchName oracle = ticket)
      ∧ (∀ (pattern m : String),
          stepsTicket = true → ticket = "" → pattern ≠ "" →
          oracle pattern branchName = Except.ok (some m) → m ≠ "" →
          extractTicketStep stepsTicket ticket pattern branchName oracle = m) := by
  intro oracle stepsTicket ticket branchName
  refine ⟨?_, ?_, ?_, ?_⟩
  · unfold extractTicketStep
    simp
  · intro pattern err ho
    unfold extractTicketStep
    split
    · rw [ho]
    · rfl
  · intro pattern ho
    unfold extractTicketStep
    split
    · rw [ho]
    · rfl
  · intro pattern m hst ht hp ho hm
    unfold extractTicketStep
    rw [if_pos (by simp [hst, ht, hp]), ho]
    simp [hm]

/-- Witness for C8: an oracle returning the first match `"DEV-123"`
against the branch name populates the empty ticket with it. -/
theorem C8_witness :
    extractTicketStep true "" "[A-Z]+-[0-9]+" "feature/DEV-123"
        (fun _ _ => Except.ok (some "DEV-123"))
      = "DEV-123" :=
  (C8_ticket_extraction (fun _ _ => Except.ok (some "DEV-123")) true "" "feature/DEV-123").2.2.2
    "[A-Z]+-[0-9]+" "DEV-123" rfl rfl (by decide) rfl (by decide)

/-- C9 counterexample: the staged set `["yarn.lock"]` is classified as
`security`, not `build` — the `.lock`-suffix security rule precedes the
lockfile rule in the code's decision list. -/
theorem C9_counterexample :
    suggestCommitType ["yarn.lock"] = some "security"
      ∧ suggestCommitType ["yarn.lock"] ≠ some "build" := by
  decide

/-- C9 (amended): the suggester follows the code's ordered decision
list; the spec's worked examples hold — all-markdown → `docs`,
`package.json` → `chore`, `src/index.ts` → `feat`, empty set → absent —
but a `.lock`-suffixed lockfile such as `["yarn.lock"]` yields
`security` (the `.lock`-suffix rule fires first), while
`["package-lock.json"]` reaches the lockfile rule and yields `build`. -/
theorem C9_amended_decision_list :
    suggestCommitType ["README.md", "CONTRIBUTING.md"] = some "docs"
      ∧ suggestCommitType ["package.json"] = some "chore"
      ∧ suggestCommitType ["src/index.ts"] = some "feat"
      ∧ suggestCommitType [] = none
      ∧ suggestCommitType ["yarn.lock"] = some "security"
      ∧ suggestCommitType ["package-lock.json"] = some "build" := by
  refine ⟨by decide, by decide, by decide, by decide, by decide, by decide⟩

set_option maxHeartbeats 2000000 in
theorem suggest_range :
    ∀ (files : List String) (t : String), suggestCommitType files = some t →
      t ∈ ["docs", "chore", "test", "style", "refactor", "feat", "perf",
           "security", "ci", "build"] := by
  intro files t h
  unfold suggestCommitType at h
  split_ifs at h <;>
    first
      | exact Option.noConfusion h
      | (injection h with h2; subst h2; decide)

/-- C10: every present suggestion lies in the fixed ten-value set
`{docs, chore, test, style, refactor, feat, perf, security, ci, build}`,
and this set contains values (`security`, likewise `ci` and `build`)
that are not among the nine default configured commit types, so some
staged sets — e.g. `["yarn.lock"]` — produce a suggested default that
matches no selectable commit-type choice of the commit prompt. -/
theorem C10_suggester_range :
    (∀ (files : List String) (t : String), suggestCommitType files = some t →
      t ∈ ["docs", "chore", "test", "style", "refactor", "feat", "perf",
           "security", "ci", "build"])
    ∧ (suggestCommitType ["yarn.lock"] = some "security"
      ∧ "security" ∉ defaultCommitTypes.map CommitType.value
      ∧ "ci" ∉ defaultCommitTypes.map CommitType.value
      ∧ "build" ∉ defaultCommitTypes.map CommitType.value) :=
  ⟨suggest_range, by decide, by decide, by decide, by decide⟩

/-- Witness for C10 at the staged set `["src/index.ts"]`. -/
theorem C10_witness :
    ("feat" : String) ∈ ["docs", "chore", "test", "style", "refactor", "feat",
        "perf", "security", "ci", "build"] :=
  C10_suggester_range.1 ["src/index.ts"] "feat" (by decide)

/-! Lemmas for templates without placeholders. -/

theorem takeWhile_word_append {p : Char → Bool} :
    ∀ (w : List Char) (d : Char) (t : List Char), (∀ c ∈ w, p c = true) → p d = false →
      (w ++ d :: t).takeWhile p = w ∧ (w ++ d :: t).dropWhile p = d :: t := by
  intro w
  induction w with
  | nil =>
    intro d t _ hd
    simp [List.takeWhile_cons, List.dropWhile_cons, hd]
  | cons a w ih =>
    intro d t hw hd
    have ha : p a = true := hw a (List.mem_cons_self a w)
    have ihw := ih d t (fun c hc => hw c (List.mem_cons_of_mem a hc)) hd
    simp [List.takeWhile_cons, List.dropWhile_cons, ha, ihw.1, ihw.2]

theorem replaceFirst_of_no_occurrence :
    ∀ {pat : List Char}, pat ≠ [] → ∀ {l : List Char}, ¬ (pat <:+: l) →
      ∀ repl, replaceFirst pat repl l = l := by
  intro pat hpat l
  induction l with
  | nil =>
    intro _ repl
    simp [replaceFirst, List.isEmpty_iff, hpat]
  | cons c rest ih =>
    intro hinf repl
    unfold replaceFirst
    rw [if_neg ?_]
    · rw [ih ?_ repl]
      intro hi
      rcases hi with ⟨s, t, hst⟩
      exact hinf ⟨c :: s, t, by rw [← hst]; rfl⟩
    · intro hpre
      have hp := List.isPrefixOf_iff_prefix.mp hpre
      rcases hp with ⟨t, ht⟩
      exact hinf ⟨[], t, by rw [← ht]; rfl⟩

theorem scanPHAux_tail_nil {fuel : Nat} {c : Char} {rest : List Char}
    (h : scanPHAux (fuel + 1) (c :: rest) = []) : scanPHAux fuel rest = [] := by
  unfold scanPHAux at h
  by_cases hc : c = '\x7b'
  · rw [if_pos hc] at h
    split at h
    · split at h
      · exact h
      · exact absurd h (by simp)
    · exact h
  · rw [if_neg hc] at h
    exact h

theorem scanPHAux_no_token :
    ∀ (fuel : Nat) (l : List Char), l.length < fuel → scanPHAux fuel l = [] →
      ∀ (w : List Char), w ≠ [] → (∀ c ∈ w, isWordChar c = true) →
      ¬ (('\x7b' :: (w ++ ['\x7d'])) <:+: l) := by
  intro fuel
  induction fuel with
  | zero =>
    intro l hl
    omega
  | succ fuel ih =>
    intro l hl h w hw hwc hinf
    rcases hinf with ⟨s, t, hst⟩
    rcases s with _ | ⟨c1, s1⟩
    · rw [List.nil_append, List.cons_append, List.append_assoc] at hst
      subst hst
      rw [List.singleton_append] at h hl
      unfold scanPHAux at h
      rw [if_pos rfl] at h
      have hsplit := takeWhile_word_append w '\x7d' t hwc (by decide)
      rw [hsplit.2] at h
      split at h
      · rw [hsplit.1, if_neg (by simp [hw])] at h
        exact absurd h (by simp)
      · next _ hne => exact absurd rfl (hne t)
    · rw [List.cons_append, List.cons_append] at hst
      subst hst
      have h2 := scanPHAux_tail_nil h
      refine ih (s1 ++ ('\x7b' :: (w ++ ['\x7d'])) ++ t) ?_ h2 w hw hwc ⟨s1, t, rfl⟩
      simp at hl ⊢
      omega

/-- A template with no scanned placeholder keeps every `{word}` token
un-replaced: such a token cannot occur as a substring. -/
theorem replaceFirst_no_placeholder {template : List Char}
    (hscan : scanPH template = []) {w : List Char} (hw : w ≠ [])
    (hwc : ∀ c ∈ w, isWordChar c = true) (repl : List Char) :
    replaceFirst ('\x7b' :: (w ++ ['\x7d'])) repl template = template :=
  replaceFirst_of_no_occurrence (by simp)
    (scanPHAux_no_token (template.length + 1) template (by omega) hscan w hw hwc) repl

theorem renderCommit_no_placeholder :
    ∀ (template : String) (a : CommitAnswers), scanPH template.data = [] →
      renderCommitMessage template a = template := by
  intro template a hscan
  have htok : ∀ (pat w : List Char), pat = '\x7b' :: (w ++ ['\x7d']) → w ≠ [] →
      (∀ c ∈ w, isWordChar c = true) → ∀ repl,
      replaceFirst pat repl template.data = template.data := by
    intro pat w hpat hw hwc repl
    rw [hpat]
    exact replaceFirst_no_placeholder hscan hw hwc repl
  simp only [renderCommitMessage]
  rw [htok "{ticket}".data "ticket".data (by decide) (by decide) (by decide) _,
    htok "{ticketSeparator}".data "ticketSeparator".data (by decide) (by decide) (by decide) _,
    htok "{type}".data "type".data (by decide) (by decide) (by decide) _,
    htok "{scope}".data "scope".data (by decide) (by decide) (by decide) _,
    htok "{summary}".data "summary".data (by decide) (by decide) (by decide) _,
    htok "{body}".data "body".data (by decide) (by decide) (by decide) _,
    htok "{footer}".data "footer".data (by decide) (by decide) (by decide) _]

theorem renderBranch_no_placeholder :
    ∀ (template : String) (answers : List (List Char × List Char))
      (cfgs : List (List Char × ExtendedPlaceholderConfig)) (r : Nat),
      scanPH template.data = [] →
      renderBranchName template answers cfgs r
        = if (cleanupBranch template.data).isEmpty then (⟨newBranchChars r⟩ : String)
          else ⟨cleanupBranch template.data⟩ := by
  intro template answers cfgs r hscan
  unfold renderBranchName
  rw [hscan]
  rfl

/-! Lemmas about the fallback name and the cleanup pass. -/

theorem natDigitChar_digit (n : Nat) : isAsciiDigit (natDigitChar n) = true := by
  unfold natDigitChar
  split <;> decide

theorem natDecimalAux_digits :
    ∀ (fuel n : Nat), (natDecimalAux fuel n).all isAsciiDigit = true := by
  intro fuel
  induction fuel with
  | zero =>
    intro n
    simp [natDecimalAux]
  | succ fuel ih =>
    intro n
    unfold natDecimalAux
    split
    · simp [natDigitChar_digit]
    · simp [List.all_append, ih (n / 10), natDigitChar_digit]

theorem natDecimal_ne_nil (n : Nat) : natDecimal n ≠ [] := by
  unfold natDecimal natDecimalAux
  split <;> simp

theorem matchesNewBranchNum_newBranchChars (r : Nat) :
    matchesNewBranchNum ⟨newBranchChars r⟩ = true := by
  unfold matchesNewBranchNum newBranchChars
  have hp : ("new-branch-".data : List Char).isPrefixOf
      ("new-branch-".data ++ natDecimal r) = true :=
    List.isPrefixOf_iff_prefix.mpr (List.prefix_append _ _)
  have hd : (("new-branch-".data : List Char) ++ natDecimal r).drop 11 = natDecimal r := by
    rw [show (11 : Nat) = ("new-branch-".data : List Char).length from rfl]
    exact List.drop_left _ _
  simp only []
  rw [hd]
  simp only [hp, Bool.true_and]
  have hne := natDecimal_ne_nil r
  have hdig := natDecimalAux_digits (r + 1) r
  rw [List.all_eq_true] at hdig
  simp [List.isEmpty_iff, hne]
  intro x hx
  exact hdig x hx

theorem head_dropWhile_false (p : Char → Bool) :
    ∀ (l : List Char) (c : Char), (l.dropWhile p).head? = some c → p c = false := by
  intro l
  induction l with
  | nil =>
    intro c h
    simp [List.dropWhile] at h
  | cons a tl ih =>
    intro c h
    rw [List.dropWhile_cons] at h
    split at h
    · exact ih c h
    · next ha =>
      simp only [List.head?_cons, Option.some.injEq] at h
      rw [← h]
      exact Bool.eq_false_iff.mpr ha

theorem dropTrailing_front (p : Char → Bool) (l : List Char) : dropTrailing p l <+: l := by
  unfold dropTrailing
  have h : List.dropWhile p l.reverse <:+ l.reverse := List.dropWhile_suffix p
  have h2 := List.reverse_prefix.mpr h
  rw [List.reverse_reverse] at h2
  exact h2

theorem getLast_dropTrailing_false (p : Char → Bool) (l : List Char) (c : Char)
    (h : (dropTrailing p l).getLast? = some c) : p c = false := by
  unfold dropTrailing at h
  rw [List.getLast?_reverse] at h
  exact head_dropWhile_false p l.reverse c h

theorem head?_of_front {l1 l2 : List Char} {c : Char} (h : l1 <+: l2)
    (hh : l1.head? = some c) : l2.head? = some c := by
  rcases h with ⟨t, rfl⟩
  cases l1
  · simp at hh
  · simpa using hh

theorem cleanupBranch_head {l : List Char} {c : Char}
    (h : (cleanupBranch l).head? = some c) : c ≠ '-' := by
  unfold cleanupBranch at h
  have h1 : (dropTrailing (fun c => c = '-')
      ((collapseRuns '-' (collapseRuns '/' l)).dropWhile (fun c => c = '-'))).head?
        = some c :=
    head?_of_front (dropTrailing_front _ _) h
  have h2 : ((collapseRuns '-' (collapseRuns '/' l)).dropWhile (fun c => c = '-')).head?
      = some c :=
    head?_of_front (dropTrailing_front _ _) h1
  have h3 := head_dropWhile_false (fun c => c = '-') _ c h2
  simpa using h3

theorem cleanupBranch_last {l : List Char} {c : Char}
    (h : (cleanupBranch l).getLast? = some c) : c ≠ '/' := by
  unfold cleanupBranch at h
  have h2 := getLast_dropTrailing_false _ _ c h
  simpa using h2

/-- C3: branch-name rendering substitutes each scanned placeholder —
an empty resolved value removes `{ph}/` first, then `{ph}-`, then bare
`{ph}` (first occurrence each), a non-empty value replaces the first
`{ph}` — then runs the cleanup pass (collapse repeated `/`, collapse
repeated `-`, trim leading/trailing `-`, strip trailing `/`; the result
never starts with `-` and never ends with `/`), and when the cleaned
name is empty the result is the fallback `new-branch-<n>` for some
`n ≤ 9999`, matching `^new-branch-\d+$`. -/
theorem C3_branch_render :
    ∀ (template : String) (answers : List (List Char × List Char))
      (cfgs : List (List Char × ExtendedPlaceholderConfig)) (r : Nat),
      r < 10000 →
      (renderBranchName template answers cfgs r
          = (if (cleanupBranch (substituteAll (dedupe (scanPH template.data))
                  (resolvedValue answers cfgs) template.data)).isEmpty
             then (⟨newBranchChars r⟩ : String)
             else ⟨cleanupBranch (substituteAll (dedupe (scanPH template.data))
                  (resolvedValue answers cfgs) template.data)⟩))
      ∧ (∀ (ph acc : List Char), resolvedValue answers cfgs ph = [] →
          substOne (resolvedValue answers cfgs) acc ph
            = replaceFirst (phToken ph) []
                (replaceFirst (phToken ph ++ ['-']) []
                  (replaceFirst (phToken ph ++ ['/']) [] acc)))
      ∧ (∀ (ph acc : List Char), resolvedValue answers cfgs ph ≠ [] →
          substOne (resolvedValue answers cfgs) acc ph
            = replaceFirst (phToken ph) (resolvedValue answers cfgs ph) acc)
      ∧ (∀ (l : List Char) (c : Char),
          ((cleanupBranch l).head? = some c → c ≠ '-')
            ∧ ((cleanupBranch l).getLast? = some c → c ≠ '/'))
      ∧ ((cleanupBranch (substituteAll (dedupe (scanPH template.data))
            (resolvedValue answers cfgs) template.data)).isEmpty = true →
          ∃ n, n ≤ 9999
            ∧ renderBranchName template answers cfgs r = ⟨newBranchChars n⟩
            ∧ matchesNewBranchNum (renderBranchName template answers cfgs r) = true) := by
  intro template answers cfgs r hr
  refine ⟨rfl, ?_, ?_, ?_, ?_⟩
  · intro ph acc h
    simp [substOne, h]
  · intro ph acc h
    simp [substOne, List.isEmpty_iff, h]
  · intro l c
    exact ⟨cleanupBranch_head, cleanupBranch_last⟩
  · intro hE
    have hfall : renderBranchName template answers cfgs r = ⟨newBranchChars r⟩ := by
      simp only [renderBranchName]
      rw [if_pos hE]
    refine ⟨r, by omega, hfall, ?_⟩
    rw [hfall]
    exact matchesNewBranchNum_newBranchChars r

/-- Witness for C3 at the empty template, empty answers and `r = 7`:
the cleaned name is empty, so the decomposition's fallback branch is
taken. -/
theorem C3_witness :
    renderBranchName "" [] [] 7
      = (if (cleanupBranch (substituteAll (dedupe (scanPH ("" : String).data))
              (resolvedValue [] []) ("" : String).data)).isEmpty
         then (⟨newBranchChars 7⟩ : String)
         else ⟨cleanupBranch (substituteAll (dedupe (scanPH ("" : String).data))
              (resolvedValue [] []) ("" : String).data)⟩) :=
  (C3_branch_render "" [] [] 7 (by omega)).1

/-- C7 counterexample: `"a//b"` contains no placeholder token, yet the
branch-name rendering path returns `"a/b"`, not the template unchanged —
the cleanup pass collapses the repeated `/`. -/
theorem C7_counterexample :
    scanPH ("a//b" : String).data = []
      ∧ renderBranchName "a//b" [] [] 0 = "a/b"
      ∧ renderBranchName "a//b" [] [] 0 ≠ "a//b" := by
  decide

/-- C7 (amended): a template with no `{name}` placeholder tokens is
returned unchanged by the commit-message rendering path; the branch-name
rendering path instead returns the cleanup pass applied to the template
(with the random fallback when that is empty), which equals the template
exactly when the template is non-empty and already clean (no repeated
separators, no leading/trailing `-`, no trailing `/`). -/
theorem C7_no_placeholder_render :
    (∀ (template : String) (a : CommitAnswers), scanPH template.data = [] →
      renderCommitMessage template a = template)
    ∧ (∀ (template : String) (answers : List (List Char × List Char))
        (cfgs : List (List Char × ExtendedPlaceholderConfig)) (r : Nat),
        scanPH template.data = [] →
        renderBranchName template answers cfgs r
          = if (cleanupBranch template.data).isEmpty then (⟨newBranchChars r⟩ : String)
            else ⟨cleanupBranch template.data⟩)
    ∧ (∀ (template : String) (answers : List (List Char × List Char))
        (cfgs : List (List Char × ExtendedPlaceholderConfig)) (r : Nat),
        scanPH template.data = [] →
        cleanupBranch template.data = template.data → template.data ≠ [] →
        renderBranchName template answers cfgs r = template) := by
  refine ⟨renderCommit_no_placeholder, renderBranch_no_placeholder, ?_⟩
  intro template answers cfgs r hscan hclean hne
  rw [renderBranch_no_placeholder template answers cfgs r hscan, hclean,
    if_neg (by simp [List.isEmpty_iff, hne])]

/-- Witness for C7 at a placeholder-free template. -/
theorem C7_witness :
    renderCommitMessage "chore: tidy" ⟨"feat", "ui", "s", "b", "f", "T-1"⟩
      = "chore: tidy" :=
  C7_no_placeholder_render.1 "chore: tidy" ⟨"feat", "ui", "s", "b", "f", "T-1"⟩ (by decide)
